import Mathlib

/-!
Verification of the hone habit-tracking application.

This file gives a shallow embedding of the two parts of the repository
that the verified properties concern:

* the client-side habit log and its statistics/streak computation
  (hooks in the client source: toggleHabitForDate, isHabitCompleted,
  getHabitStats);
* the two serverless OTP endpoints (api/send-otp.ts and the verify-otp
  handler): rate limiting, attempt counting, expiry checking, and the
  account-creation flows.

Modelling conventions:

* Calendar days are modelled as integers (days relative to an arbitrary
  epoch).  The client code stores a log keyed by a formatted date string
  (yyyy-MM-dd) and manipulates dates with date-fns (subDays,
  differenceInDays); since formatting is a bijection between calendar
  days and keys, subDays corresponds to integer subtraction and
  differenceInDays to integer difference.
* A JavaScript object used as a finite map is modelled as an association
  list with pairwise-distinct keys (objects cannot repeat keys); lookup
  takes the first matching key.
* Timestamps (Date.now(), expiresAt) are integers in milliseconds.
* Handlers are modelled as pure functions of their request, the relevant
  stored state, the current time, and the values returned by external
  sources of nondeterminism (the random code generator, whether a user
  already exists).  Backend writes are reflected in the returned state.
-/

/-! ## The habit log -/

/-- HabitLog: the client log object, a map from a day key to the list of
habit ids completed on that day (`Record<string, string[]>` in the
source), as an association list keyed by the integer day. -/
abbrev HabitLog := List (Int × List String)

/-- logged logs d h: whether habit h is recorded on day d, the client
expression `logs[dateKey]?.includes(habitId) || false`. -/
def logged (logs : HabitLog) (d : Int) (h : String) : Bool :=
  ((logs.lookup d).getD []).contains h

/-- isHabitCompleted from the useHabits hook: membership of the habit in
the day's entry of the log. -/
def isHabitCompleted (logs : HabitLog) (d : Int) (h : String) : Bool :=
  logged logs d h

/-- setLog logs d v: the object-spread update `{ ...prev, [dateKey]: v }`:
replaces the value at an existing key in place, otherwise appends the new
key at the end. -/
def setLog (logs : HabitLog) (d : Int) (v : List String) : HabitLog :=
  if logs.any (fun p => p.1 == d) then
    logs.map (fun p => if p.1 = d then (d, v) else p)
  else
    logs ++ [(d, v)]

/-- toggleHabitForDate from the useHabits hook: reads the day's entry
(`prev[dateKey] || []`), removes the habit if present
(`currentHabits.filter(id => id !== habitId)`) or appends it
(`[...currentHabits, habitId]`), and writes the updated entry back. -/
def toggleHabitForDate (logs : HabitLog) (d : Int) (h : String) : HabitLog :=
  let currentHabits := (logs.lookup d).getD []
  let updatedHabits :=
    if currentHabits.contains h then currentHabits.filter (fun x => x != h)
    else currentHabits ++ [h]
  setLog logs d updatedHabits

/-! ## Habit statistics -/

/-- streakFrom logs h d fuel: the current-streak loop of getHabitStats.
The source runs `for (let i = 0; i < 365; i++)`, incrementing the streak
and stepping `checkDate = subDays(checkDate, 1)` while the habit is
logged on checkDate, and breaking at the first unlogged day; fuel is the
remaining number of loop iterations (365 at the top). -/
def streakFrom (logs : HabitLog) (h : String) : Int → Nat → Nat
  | _, 0 => 0
  | d, fuel+1 => if logged logs d h then streakFrom logs h (d-1) fuel + 1 else 0

/-- insertDesc: insertion step of a descending sort by the key. -/
def insertDesc (x : Int) : List Int → List Int
  | [] => [x]
  | y :: t => if y ≤ x then x :: y :: t else y :: insertDesc x t

/-- sortDesc: sorting in descending order, the model of the source's
`.sort((a, b) => b.getTime() - a.getTime())` on the parsed date keys. -/
def sortDesc : List Int → List Int
  | [] => []
  | x :: t => insertDesc x (sortDesc t)

/-- allDatesFor: the `allDates` array of getHabitStats: the day keys of
the log whose entry includes the habit, sorted most recent first. -/
def allDatesFor (logs : HabitLog) (h : String) : List Int :=
  sortDesc ((logs.filter (fun p => p.2.contains h)).map Prod.fst)

/-- longestGo rest prev longest temp: the longest-streak loop of
getHabitStats, scanning the descending `allDates` array; prev is
`allDates[i-1]`, temp the running streak (tempStreak), longest the best
so far; `differenceInDays(allDates[i-1], allDates[i])` is prev - d. -/
def longestGo : List Int → Int → Nat → Nat → Nat
  | [], _, longest, temp => max longest temp
  | d :: rest, prev, longest, temp =>
    if prev - d = 1 then longestGo rest d longest (temp + 1)
    else longestGo rest d (max longest temp) 1

/-- longestStreakOf dates: the longest-streak computation of
getHabitStats over the sorted date list: 0 on an empty list, otherwise
the loop starting with tempStreak = 1 from the first element. -/
def longestStreakOf : List Int → Nat
  | [] => 0
  | d :: rest => longestGo rest d 0 1

/-- HabitStats: the statistics record returned by getHabitStats.  The
source also returns thisWeek, thisMonth and completionRate; those fields
depend on calendar week/month boundaries and floating-point division and
are not the subject of any verified property, so they are omitted here. -/
structure HabitStats where
  totalDays : Nat
  currentStreak : Nat
  longestStreak : Nat
  deriving Repr, DecidableEq

/-- getHabitStats logs today h: the statistics computation of the
useHabits hook for a single habit (the Firestore variant computes the
same streaks in its single-habit branch): totalDays is the number of
logged days for the habit, currentStreak the capped backwards scan from
today, longestStreak the scan of the descending date list. -/
def getHabitStats (logs : HabitLog) (today : Int) (h : String) : HabitStats :=
  let allDates := allDatesFor logs h
  { totalDays := allDates.length
    currentStreak := streakFrom logs h today 365
    longestStreak := longestStreakOf allDates }

/-- streakSpecHolds logs h today n: the manual streak calculation of the
spec: the habit is logged on each of the n consecutive days ending at
today, and not on the day before those n days. -/
def streakSpecHolds (logs : HabitLog) (h : String) (today : Int) (n : Nat) : Prop :=
  (∀ k : Nat, k < n → logged logs (today - k) h = true) ∧
    logged logs (today - n) h = false

/-! ## OTP records and the verify-otp handler -/

/-- OtpDoc: the document stored at `_otps/{email}`: the code string, the
expiry timestamp in milliseconds, the (server-assigned) creation
timestamp, and the optional attempts counter (`attempts?: number`). -/
structure OtpDoc where
  otp : String
  expiresAt : Int
  createdAt : Option Int
  attempts : Option Nat
  deriving Repr, DecidableEq

/-- attemptsOrZero d: the handler's `data.attempts || 0`. -/
def attemptsOrZero (d : OtpDoc) : Nat := d.attempts.getD 0

/-- VerifyReq: the JSON body of a verify-code POST: email, otp, and an
optional password.  JavaScript truthiness makes the empty string behave
like an absent field. -/
structure VerifyReq where
  email : String
  otp : String
  password : Option String
  deriving Repr, DecidableEq

/-- passwordTruthy req: the handler's `if (password)` / `!!password`
test: a password was supplied and is not the empty string. -/
def passwordTruthy (req : VerifyReq) : Bool :=
  match req.password with
  | some p => p ≠ ""
  | none => false

/-- VerifyResult: the observable outcome of one verify-code request: the
HTTP status, the success flag of the body (false on error bodies, which
carry only an error message), the isNewUser field of the 200 body, the
state of the `_otps/{email}` document after the request, and the
side effects on the account: whether an auth user was created, whether
the email ended up marked verified, whether the default calendar was
created, and how many default habits were created. -/
structure VerifyResult where
  status : Nat
  success : Bool
  isNewUser : Option Bool
  record : Option OtpDoc
  userCreated : Bool
  emailVerified : Bool
  calendarCreated : Bool
  habitsCreated : Nat
  deriving Repr, DecidableEq

/-- unchangedVerify: a response that leaves the stored record and the
account untouched. -/
def unchangedVerify (status : Nat) (record : Option OtpDoc) : VerifyResult :=
  { status := status, success := false, isNewUser := none, record := record,
    userCreated := false, emailVerified := false, calendarCreated := false,
    habitsCreated := 0 }

/-- verifyOtp req record now userExists: the verify-otp handler on a
POST request, assuming the backend operations themselves succeed; record
is the `_otps/{email}` document (none when absent), now is Date.now(),
and userExists tells whether an auth user with the email already exists
(it drives the `auth/email-already-exists` branch of Flow A and the
getUserByEmail call of Flow B).  The branches follow the source in
order: missing email/otp (JavaScript falsiness), missing document, max
attempts (delete and reject), expiry, code comparison (increment
attempts on mismatch), then Flow A (create user, default calendar, a
batch of four default habits plus the OTP deletion) or Flow B (mark
verified and delete the OTP record). -/
def verifyOtp (req : VerifyReq) (record : Option OtpDoc) (now : Int)
    (userExists : Bool) : VerifyResult :=
  if req.email = "" ∨ req.otp = "" then
    unchangedVerify 400 record
  else
    match record with
    | none => unchangedVerify 400 none
    | some d =>
      if attemptsOrZero d ≥ 3 then
        unchangedVerify 400 none
      else if now > d.expiresAt then
        unchangedVerify 400 (some d)
      else if req.otp ≠ d.otp then
        unchangedVerify 400 (some { d with attempts := some (attemptsOrZero d + 1) })
      else if passwordTruthy req then
        if userExists then
          unchangedVerify 400 (some d)
        else
          { status := 200, success := true, isNewUser := some true,
            record := none, userCreated := true, emailVerified := true,
            calendarCreated := true, habitsCreated := 4 }
      else
        if userExists then
          { status := 200, success := true, isNewUser := some false,
            record := none, userCreated := false, emailVerified := true,
            calendarCreated := false, habitsCreated := 0 }
        else
          unchangedVerify 500 (some d)

/-! ## Flow A with failure injection (atomicity of account creation) -/

/-- AccountState: which of the Flow A effects have taken place. -/
structure AccountState where
  userCreated : Bool
  calendarCreated : Bool
  habitsCreated : Nat
  otpDeleted : Bool
  deriving Repr, DecidableEq

/-- allFlowAEffects s: every effect of Flow A took place: the auth user,
the default calendar, the four default habits, and the deletion of the
used OTP record. -/
def allFlowAEffects (s : AccountState) : Prop :=
  s.userCreated = true ∧ s.calendarCreated = true ∧ s.habitsCreated = 4 ∧
    s.otpDeleted = true

/-- noFlowAEffects s: no effect of Flow A took place. -/
def noFlowAEffects (s : AccountState) : Prop :=
  s.userCreated = false ∧ s.calendarCreated = false ∧ s.habitsCreated = 0 ∧
    s.otpDeleted = false

/-- runFlowA failAt: the new-user path of verify-otp with failure
injection.  Flow A performs three separate awaited backend operations in
order: step 0 is `auth.createUser`, step 1 is the calendar `add`, and
step 2 is the single `batch.commit` that writes the four default habits
and deletes the used OTP record (only these two are in one batch).
failAt = some i makes step i throw; the surrounding try/catch then
answers 500, with every earlier step's effects already applied.  The
result is the account state together with the HTTP status. -/
def runFlowA (failAt : Option Nat) : AccountState × Nat :=
  if failAt = some 0 then
    ({ userCreated := false, calendarCreated := false, habitsCreated := 0,
       otpDeleted := false }, 500)
  else if failAt = some 1 then
    ({ userCreated := true, calendarCreated := false, habitsCreated := 0,
       otpDeleted := false }, 500)
  else if failAt = some 2 then
    ({ userCreated := true, calendarCreated := true, habitsCreated := 0,
       otpDeleted := false }, 500)
  else
    ({ userCreated := true, calendarCreated := true, habitsCreated := 4,
       otpDeleted := true }, 200)

/-! ## The send-otp handler -/

/-- SendResult: the observable outcome of one send-code request: the
HTTP status, the `_otps/{email}` document after the request, and the
code contained in the email that was sent, if one was sent. -/
structure SendResult where
  status : Nat
  record : Option OtpDoc
  emailSentCode : Option String
  deriving Repr, DecidableEq

/-- sendOtp email record now code: the send-otp handler on a POST
request, assuming the backend operations succeed; record is the existing
`_otps/{email}` document, now is Date.now(), and code is the value
returned by `randomInt(100000, 1000000)` (modelled as a parameter, with
its documented range as a hypothesis where needed).  The handler rejects
a missing email (400), rate-limits when the existing document was
created less than 60000 ms ago (429, `data?.createdAt?.toDate().getTime()
|| 0`), and otherwise stores the fresh document (code string, expiry ten
minutes from now, server-assigned createdAt, attempts reset to 0) and
sends the email carrying the code.  The rate-limit test rateLimited is
the handler's `Date.now() - lastSent < 60000` with
`lastSent = data?.createdAt?.toDate().getTime() || 0`. -/
def rateLimited (record : Option OtpDoc) (now : Int) : Bool :=
  match record with
  | some d => now - (d.createdAt.getD 0) < 60000
  | none => false

/-- sendOtp email record now code: the send-otp handler; see the doc
comment of rateLimited for the parameters and branch structure. -/
def sendOtp (email : String) (record : Option OtpDoc) (now : Int)
    (code : Nat) : SendResult :=
  if email = "" then
    { status := 400, record := record, emailSentCode := none }
  else if rateLimited record now then
    { status := 429, record := record, emailSentCode := none }
  else
    { status := 200,
      record := some { otp := Nat.repr code, expiresAt := now + 10 * 60 * 1000,
                       createdAt := some now, attempts := some 0 },
      emailSentCode := some (Nat.repr code) }

/-! ## Event ordering of the send-otp success path -/

/-- SendEvent: the externally visible events of a successful send-code
request: code generation, the start and completion of the Firestore
write, the start and completion of the email send, and the 200
response. -/
inductive SendEvent where
  | genCode
  | storeStart
  | sendStart
  | storeEnd
  | sendEnd
  | respond
  deriving Repr, DecidableEq

/-- sendOtpSuccessTraces: the possible event orders of the success path.
The source generates the code, then evaluates
`Promise.all([otpRef.set(...), transporter.sendMail(...)])`: the array
literal starts the store and then starts the send synchronously, and the
two operations complete in either order before the awaited Promise.all
resolves and the 200 response is returned. -/
def sendOtpSuccessTraces : List (List SendEvent) :=
  [[SendEvent.genCode, SendEvent.storeStart, SendEvent.sendStart,
    SendEvent.storeEnd, SendEvent.sendEnd, SendEvent.respond],
   [SendEvent.genCode, SendEvent.storeStart, SendEvent.sendStart,
    SendEvent.sendEnd, SendEvent.storeEnd, SendEvent.respond]]

/-- beforeIn t e₁ e₂: event e₁ occurs before event e₂ in trace t. -/
def beforeIn (t : List SendEvent) (e₁ e₂ : SendEvent) : Prop :=
  t.indexOf e₁ < t.indexOf e₂

/-! ## Helper lemmas: lookup, membership, sorting -/

/-- Membership form of List.contains for types with a lawful BEq. -/
theorem list_contains_iff_mem {α : Type} [BEq α] [LawfulBEq α] {l : List α}
    {a : α} : l.contains a = true ↔ a ∈ l :=
  List.elem_iff

/-- A successful association-list lookup comes from an entry of the list. -/
theorem mem_of_lookup_eq_some {logs : HabitLog} {d : Int} {v : List String}
    (h : logs.lookup d = some v) : (d, v) ∈ logs := by
  induction logs with
  | nil => simp [List.lookup] at h
  | cons p t ih =>
    obtain ⟨a, b⟩ := p
    rw [List.lookup] at h
    by_cases hd : d == a
    · rw [hd] at h
      simp only [Option.some.injEq] at h
      have hdp : d = a := eq_of_beq hd
      subst hdp
      subst h
      exact List.mem_cons_self _ _
    · rw [Bool.not_eq_true] at hd
      rw [hd] at h
      exact List.mem_cons_of_mem _ (ih h)

/-- With pairwise-distinct keys, every entry is found by lookup. -/
theorem lookup_eq_some_of_mem {logs : HabitLog}
    (hnd : (logs.map Prod.fst).Nodup) {d : Int} {v : List String}
    (hm : (d, v) ∈ logs) : logs.lookup d = some v := by
  induction logs with
  | nil => cases hm
  | cons p t ih =>
    rw [List.map_cons, List.nodup_cons] at hnd
    rcases List.mem_cons.mp hm with h1 | h2
    · rw [← h1, List.lookup]
      simp
    · rw [List.lookup]
      have hne : ¬ d == p.1 := by
        intro hbeq
        have hdp : d = p.1 := eq_of_beq hbeq
        exact hnd.1 (hdp ▸ List.mem_map_of_mem Prod.fst h2)
      rw [Bool.not_eq_true] at hne
      rw [hne]
      exact ih hnd.2 h2

/-- logged unfolded: a successful lookup whose entry contains the habit. -/
theorem logged_iff_lookup {logs : HabitLog} {d : Int} {h : String} :
    logged logs d h = true ↔ ∃ v, logs.lookup d = some v ∧ h ∈ v := by
  unfold logged
  cases hl : logs.lookup d with
  | none => simp
  | some v =>
    simp only [Option.getD_some, Option.some.injEq]
    rw [list_contains_iff_mem]
    constructor
    · intro hv
      exact ⟨v, rfl, hv⟩
    · rintro ⟨w, hw, hmem⟩
      exact hw ▸ hmem

/-- habitKeys logs h: the unsorted day keys of the log whose entry
includes the habit (the argument of the sort in getHabitStats). -/
def habitKeys (logs : HabitLog) (h : String) : List Int :=
  (logs.filter (fun p => p.2.contains h)).map Prod.fst

/-- A logged day is among the habit's keys. -/
theorem mem_habitKeys_of_logged {logs : HabitLog} {d : Int} {h : String}
    (hl : logged logs d h = true) : d ∈ habitKeys logs h := by
  rcases logged_iff_lookup.mp hl with ⟨v, hv, hmem⟩
  have hm : (d, v) ∈ logs := mem_of_lookup_eq_some hv
  have hf : (d, v) ∈ logs.filter (fun p => p.2.contains h) := by
    rw [List.mem_filter]
    exact ⟨hm, list_contains_iff_mem.mpr hmem⟩
  exact List.mem_map_of_mem Prod.fst hf

/-- If no entry of the log contains the habit, the habit has no keys. -/
theorem habitKeys_eq_nil {logs : HabitLog} {h : String}
    (habs : ∀ p ∈ logs, p.2.contains h = false) : habitKeys logs h = [] := by
  unfold habitKeys
  have : logs.filter (fun p => p.2.contains h) = [] := by
    rw [List.filter_eq_nil_iff]
    intro p hp
    simp only [Bool.not_eq_true]
    exact habs p hp
  rw [this, List.map_nil]

/-- Distinct log keys give distinct habit keys. -/
theorem habitKeys_nodup {logs : HabitLog} {h : String}
    (hnd : (logs.map Prod.fst).Nodup) : (habitKeys logs h).Nodup :=
  ((List.filter_sublist logs).map Prod.fst).nodup hnd

/-- insertDesc is a permutation of consing. -/
theorem insertDesc_perm (x : Int) (l : List Int) :
    (insertDesc x l).Perm (x :: l) := by
  induction l with
  | nil => rfl
  | cons y t ih =>
    rw [insertDesc]
    by_cases hle : y ≤ x
    · rw [if_pos hle]
    · rw [if_neg hle]
      exact (ih.cons y).trans (List.Perm.swap x y t)

/-- sortDesc is a permutation of its input. -/
theorem sortDesc_perm (l : List Int) : (sortDesc l).Perm l := by
  induction l with
  | nil => rfl
  | cons x t ih =>
    rw [sortDesc]
    exact (insertDesc_perm x (sortDesc t)).trans (ih.cons x)

/-- insertDesc preserves descending (≥) sortedness. -/
theorem insertDesc_sorted {x : Int} {l : List Int}
    (hs : l.Pairwise (· ≥ ·)) : (insertDesc x l).Pairwise (· ≥ ·) := by
  induction l with
  | nil => simp [insertDesc]
  | cons y t ih =>
    rw [List.pairwise_cons] at hs
    rw [insertDesc]
    by_cases hle : y ≤ x
    · rw [if_pos hle]
      rw [List.pairwise_cons]
      constructor
      · intro b hb
        rcases List.mem_cons.mp hb with hb | hb
        · subst hb
          exact hle
        · exact le_trans (hs.1 b hb) hle
      · rw [List.pairwise_cons]
        exact hs
    · rw [if_neg hle]
      rw [List.pairwise_cons]
      constructor
      · intro b hb
        rcases List.mem_cons.mp ((insertDesc_perm x t).mem_iff.mp hb) with hb | hb
        · subst hb
          exact le_of_lt (lt_of_not_le hle)
        · exact hs.1 b hb
      · exact ih hs.2

/-- sortDesc sorts in descending (≥) order. -/
theorem sortDesc_sorted (l : List Int) : (sortDesc l).Pairwise (· ≥ ·) := by
  induction l with
  | nil => simp [sortDesc]
  | cons x t ih =>
    rw [sortDesc]
    exact insertDesc_sorted ih

/-- On duplicate-free input, sortDesc is strictly descending. -/
theorem sortDesc_strict {l : List Int} (hnd : l.Nodup) :
    (sortDesc l).Pairwise (· > ·) := by
  have h1 : (sortDesc l).Nodup := ((sortDesc_perm l).nodup_iff).mpr hnd
  have h2 := (sortDesc_sorted l).and h1
  exact h2.imp (fun hab => lt_of_le_of_ne hab.1 (Ne.symm hab.2))

/-! ## Helper lemmas: the current streak -/

/-- Every day counted by the streak loop is logged. -/
theorem logged_of_lt_streakFrom {logs : HabitLog} {h : String} :
    ∀ (fuel : Nat) (d : Int) (k : Nat), k < streakFrom logs h d fuel →
      logged logs (d - k) h = true := by
  intro fuel
  induction fuel with
  | zero =>
    intro d k hk
    simp [streakFrom] at hk
  | succ n ih =>
    intro d k hk
    rw [streakFrom] at hk
    by_cases hl : logged logs d h
    · rw [if_pos hl] at hk
      cases k with
      | zero => simpa using hl
      | succ j =>
        have hj : j < streakFrom logs h (d - 1) n := by omega
        have := ih (d - 1) j hj
        have harg : d - 1 - (j : Int) = d - ((j : Nat) + 1 : Nat) := by
          push_cast
          ring
        rw [harg] at this
        exact this
    · rw [if_neg hl] at hk
      omega

/-- The streak loop computes the manual streak, capped by its fuel. -/
theorem streakFrom_eq_min {logs : HabitLog} {h : String} :
    ∀ (fuel : Nat) (d : Int) (n : Nat),
      (∀ k : Nat, k < n → logged logs (d - k) h = true) →
      logged logs (d - n) h = false →
      streakFrom logs h d fuel = min fuel n := by
  intro fuel
  induction fuel with
  | zero =>
    intro d n _ _
    simp [streakFrom]
  | succ m ih =>
    intro d n hall hstop
    rw [streakFrom]
    cases n with
    | zero =>
      have : logged logs d h = false := by simpa using hstop
      rw [this]
      simp
    | succ j =>
      have h0 : logged logs d h = true := by
        have := hall 0 (by omega)
        simpa using this
      rw [h0]
      simp only [if_true]
      have hall2 : ∀ k : Nat, k < j → logged logs (d - 1 - k) h = true := by
        intro k hk
        have := hall (k + 1) (by omega)
        have harg : d - ((k : Nat) + 1 : Nat) = d - 1 - (k : Int) := by
          push_cast
          ring
        rw [harg] at this
        exact this
      have hstop2 : logged logs (d - 1 - j) h = false := by
        have harg : d - ((j : Nat) + 1 : Nat) = d - 1 - (j : Int) := by
          push_cast
          ring
        rw [harg] at hstop
        exact hstop
      rw [ih (d - 1) j hall2 hstop2]
      omega

/-! ## Helper lemmas: consecutive blocks and the longest streak -/

/-- consecBlock n a: the consecutive days a, a-1, ..., a-n+1. -/
def consecBlock (n : Nat) (a : Int) : List Int :=
  (List.range n).map (fun k : Nat => a - (k : Int))

/-- consecBlock peels off its first day. -/
theorem consecBlock_succ (n : Nat) (a : Int) :
    consecBlock (n + 1) a = a :: consecBlock n (a - 1) := by
  unfold consecBlock
  rw [List.range_succ_eq_map, List.map_cons, List.map_map]
  have : ((fun k : Nat => a - (k : Int)) ∘ (fun i => i + 1)) =
      (fun k : Nat => a - 1 - (k : Int)) := by
    funext k
    simp only [Function.comp_apply]
    push_cast
    ring
  rw [this]
  simp

/-- The longest-streak loop result dominates both accumulators. -/
theorem longestGo_ge :
    ∀ (rest : List Int) (prev : Int) (longest temp : Nat),
      longest ≤ longestGo rest prev longest temp ∧
        temp ≤ longestGo rest prev longest temp := by
  intro rest
  induction rest with
  | nil =>
    intro prev longest temp
    rw [longestGo]
    omega
  | cons d t ih =>
    intro prev longest temp
    rw [longestGo]
    by_cases hd : prev - d = 1
    · rw [if_pos hd]
      have := ih d longest (temp + 1)
      omega
    · rw [if_neg hd]
      have := ih d (max longest temp) 1
      omega

/-- Scanning a block of consecutive days grows the running streak by the
block length. -/
theorem longestGo_block :
    ∀ (m : Nat) (prev : Int) (v : List Int) (longest temp : Nat),
      temp + m ≤ longestGo (consecBlock m (prev - 1) ++ v) prev longest temp := by
  intro m
  induction m with
  | zero =>
    intro prev v longest temp
    have : consecBlock 0 (prev - 1) = [] := by simp [consecBlock]
    rw [this, List.nil_append]
    have := longestGo_ge v prev longest temp
    omega
  | succ s ih =>
    intro prev v longest temp
    rw [consecBlock_succ, List.cons_append, longestGo]
    have hd : prev - (prev - 1) = 1 := by ring
    rw [if_pos hd]
    have harg : prev - 1 - 1 = (prev - 1) - 1 := by ring
    rw [harg]
    have := ih (prev - 1) v longest (temp + 1)
    omega

/-- Reaching a block of m + 1 consecutive days anywhere in the remaining
list pushes the loop result to at least m + 1. -/
theorem longestGo_reaches :
    ∀ (u : List Int) (prev : Int) (longest temp : Nat) (a : Int) (m : Nat)
      (v : List Int),
      m + 1 ≤ longestGo (u ++ a :: (consecBlock m (a - 1) ++ v)) prev longest temp := by
  intro u
  induction u with
  | nil =>
    intro prev longest temp a m v
    rw [List.nil_append, longestGo]
    by_cases hd : prev - a = 1
    · rw [if_pos hd]
      have := longestGo_block m a v longest (temp + 1)
      omega
    · rw [if_neg hd]
      have := longestGo_block m a v (max longest temp) 1
      omega
  | cons x u' ih =>
    intro prev longest temp a m v
    rw [List.cons_append, longestGo]
    by_cases hd : prev - x = 1
    · rw [if_pos hd]
      exact ih x longest (temp + 1) a m v
    · rw [if_neg hd]
      exact ih x (max longest temp) 1 a m v

/-- In a strictly descending list starting at a that contains the n days
a, a-1, ..., a-n+1, those days form a prefix. -/
theorem consecBlock_isPrefixLike :
    ∀ (n : Nat) (a : Int) (l : List Int),
      (a :: l).Pairwise (· > ·) →
      (∀ k : Nat, k < n → (a - k : Int) ∈ a :: l) →
      ∃ v, a :: l = consecBlock n a ++ v := by
  intro n
  induction n with
  | zero =>
    intro a l _ _
    exact ⟨a :: l, by simp [consecBlock]⟩
  | succ m ih =>
    intro a l hpw hall
    rw [consecBlock_succ]
    cases m with
    | zero =>
      refine ⟨l, ?_⟩
      simp [consecBlock]
    | succ s =>
      have hm1 : (a - 1 : Int) ∈ a :: l := by
        have := hall 1 (by omega)
        simpa using this
      have hne : (a - 1 : Int) ≠ a := by omega
      have hmem : (a - 1 : Int) ∈ l := by
        rcases List.mem_cons.mp hm1 with hc | hc
        · exact absurd hc hne
        · exact hc
      obtain ⟨y, l2, rfl⟩ : ∃ y l2, l = y :: l2 := by
        cases l with
        | nil => cases hmem
        | cons y l2 => exact ⟨y, l2, rfl⟩
      rw [List.pairwise_cons] at hpw
      have hya : y < a := hpw.1 y (List.mem_cons_self _ _)
      have hy : y = a - 1 := by
        rcases List.mem_cons.mp hmem with hc | hc
        · omega
        · rw [List.pairwise_cons] at hpw
          have := hpw.2.1 (a - 1) hc
          omega
      subst hy
      have hall2 : ∀ k : Nat, k < s + 1 → ((a - 1 : Int) - k) ∈ (a - 1) :: l2 := by
        intro k hk
        have := hall (k + 1) (by omega)
        have harg : a - ((k : Nat) + 1 : Nat) = (a - 1) - (k : Int) := by
          push_cast
          ring
        rw [harg] at this
        rcases List.mem_cons.mp this with hc | hc
        · exfalso
          omega
        · exact hc
      obtain ⟨v, hv⟩ := ih (a - 1) l2 hpw.2 hall2
      exact ⟨v, by rw [List.cons_append, ← hv]⟩

/-- In a strictly descending list that contains the n ≥ 1 days
a, a-1, ..., a-n+1, those days form a contiguous segment. -/
theorem consecBlock_segment :
    ∀ (l : List Int), l.Pairwise (· > ·) →
      ∀ (a : Int) (n : Nat), 0 < n →
        (∀ k : Nat, k < n → (a - k : Int) ∈ l) →
        ∃ u v, l = u ++ consecBlock n a ++ v := by
  intro l
  induction l with
  | nil =>
    intro _ a n hn hall
    have := hall 0 hn
    simp at this
  | cons x t ih =>
    intro hpw a n hn hall
    have hmem : a ∈ x :: t := by
      have := hall 0 hn
      simpa using this
    by_cases hxa : x = a
    · subst hxa
      obtain ⟨v, hv⟩ := consecBlock_isPrefixLike n x t hpw hall
      exact ⟨[], v, by rw [List.nil_append, hv]⟩
    · have hat : a ∈ t := by
        rcases List.mem_cons.mp hmem with hc | hc
        · exact absurd hc.symm hxa
        · exact hc
      rw [List.pairwise_cons] at hpw
      have hxgt : x > a := hpw.1 a hat
      have hall2 : ∀ k : Nat, k < n → (a - k : Int) ∈ t := by
        intro k hk
        have := hall k hk
        rcases List.mem_cons.mp this with hc | hc
        · exfalso
          omega
        · exact hc
      obtain ⟨u, v, huv⟩ := ih hpw.2 a n hn hall2
      refine ⟨x :: u, v, ?_⟩
      rw [huv]
      simp

/-- The capped current streak never exceeds the longest streak over the
sorted date list, for a log with distinct keys. -/
theorem streak_le_longest {logs : HabitLog} {h : String} {today : Int}
    (hnd : (logs.map Prod.fst).Nodup) :
    streakFrom logs h today 365 ≤ longestStreakOf (allDatesFor logs h) := by
  cases hcs : streakFrom logs h today 365 with
  | zero => omega
  | succ n =>
    have hmem : ∀ k : Nat, k < n + 1 → (today - k : Int) ∈ allDatesFor logs h := by
      intro k hk
      have hl : logged logs (today - k) h = true := by
        apply logged_of_lt_streakFrom 365 today k
        omega
      have := mem_habitKeys_of_logged hl
      exact (sortDesc_perm (habitKeys logs h)).mem_iff.mpr this
    have hstrict : (allDatesFor logs h).Pairwise (· > ·) :=
      sortDesc_strict (habitKeys_nodup hnd)
    obtain ⟨u, v, huv⟩ :=
      consecBlock_segment (allDatesFor logs h) hstrict today (n + 1)
        (by omega) hmem
    rw [huv]
    rw [consecBlock_succ] at huv ⊢
    cases u with
    | nil =>
      have hsh : ([] : List Int) ++ (today :: consecBlock n (today - 1)) ++ v =
          today :: (consecBlock n (today - 1) ++ v) := by
        simp
      rw [hsh, longestStreakOf]
      have := longestGo_block n today v 0 1
      omega
    | cons x u2 =>
      have hsh : (x :: u2) ++ (today :: consecBlock n (today - 1)) ++ v =
          x :: (u2 ++ today :: (consecBlock n (today - 1) ++ v)) := by
        simp
      rw [hsh, longestStreakOf]
      have := longestGo_reaches u2 x 0 1 today n v
      omega

/-! ## Helper lemmas: setLog and toggleHabitForDate -/

/-- Boolean equality follows from logical equivalence of truth. -/
theorem bool_eq_of_iff {a b : Bool} (h : a = true ↔ b = true) : a = b := by
  cases a <;> cases b <;> simp_all

/-- Negative membership form of List.contains. -/
theorem list_contains_eq_false_iff {α : Type} [BEq α] [LawfulBEq α]
    {l : List α} {a : α} : l.contains a = false ↔ a ∉ l := by
  rw [← Bool.not_eq_true, list_contains_iff_mem]

/-- Updating a key that the log has makes lookup return the new value. -/
theorem lookup_map_upd_self {logs : HabitLog} {d : Int} {v : List String}
    (ha : logs.any (fun p => p.1 == d) = true) :
    (logs.map (fun p => if p.1 = d then (d, v) else p)).lookup d = some v := by
  induction logs with
  | nil => simp at ha
  | cons p t ih =>
    rw [List.map_cons]
    by_cases hp : p.1 = d
    · rw [if_pos hp, List.lookup]
      simp
    · rw [if_neg hp, List.lookup]
      have hne : (d == p.1) = false := beq_eq_false_iff_ne.mpr (fun he => hp he.symm)
      rw [hne]
      apply ih
      rw [List.any_cons] at ha
      have hpf : (p.1 == d) = false := beq_eq_false_iff_ne.mpr hp
      rw [hpf] at ha
      simpa using ha

/-- Updating one key leaves lookup at any other key unchanged. -/
theorem lookup_map_upd_other {logs : HabitLog} {d d' : Int} {v : List String}
    (hne : d' ≠ d) :
    (logs.map (fun p => if p.1 = d then (d, v) else p)).lookup d' =
      logs.lookup d' := by
  induction logs with
  | nil => simp
  | cons p t ih =>
    rw [List.map_cons]
    by_cases hp : p.1 = d
    · rw [if_pos hp, List.lookup, List.lookup]
      have h1 : (d' == d) = false := beq_eq_false_iff_ne.mpr hne
      have h2 : (d' == p.1) = false := beq_eq_false_iff_ne.mpr (hp ▸ hne)
      rw [h1, h2]
      exact ih
    · rw [if_neg hp, List.lookup, List.lookup]
      by_cases hq : d' == p.1
      · rw [hq]
      · rw [Bool.not_eq_true] at hq
        rw [hq]
        exact ih

/-- Appending a fresh key makes lookup find it. -/
theorem lookup_append_self {logs : HabitLog} {d : Int} {v : List String}
    (ha : logs.any (fun p => p.1 == d) = false) :
    (logs ++ [(d, v)]).lookup d = some v := by
  induction logs with
  | nil => simp [List.lookup]
  | cons p t ih =>
    rw [List.any_cons] at ha
    have hpf : (p.1 == d) = false := by
      cases hpd : (p.1 == d)
      · rfl
      · rw [hpd] at ha
        simp at ha
    rw [List.cons_append, List.lookup]
    have hne : (d == p.1) = false := by
      rw [beq_eq_false_iff_ne] at hpf ⊢
      exact fun he => hpf he.symm
    rw [hne]
    apply ih
    rw [hpf] at ha
    simpa using ha

/-- Appending one key leaves lookup at any other key unchanged. -/
theorem lookup_append_other {logs : HabitLog} {d d' : Int} {v : List String}
    (hne : d' ≠ d) :
    (logs ++ [(d, v)]).lookup d' = logs.lookup d' := by
  induction logs with
  | nil =>
    rw [List.nil_append, List.lookup, List.lookup]
    have h1 : (d' == d) = false := beq_eq_false_iff_ne.mpr hne
    rw [h1]
    rfl
  | cons p t ih =>
    rw [List.cons_append, List.lookup, List.lookup]
    by_cases hq : d' == p.1
    · rw [hq]
    · rw [Bool.not_eq_true] at hq
      rw [hq]
      exact ih

/-- Lookup after setLog at the written key. -/
theorem lookup_setLog_self (logs : HabitLog) (d : Int) (v : List String) :
    (setLog logs d v).lookup d = some v := by
  unfold setLog
  by_cases ha : logs.any (fun p => p.1 == d)
  · rw [if_pos ha]
    exact lookup_map_upd_self ha
  · rw [Bool.not_eq_true] at ha
    rw [ha]
    simp only [Bool.false_eq_true, if_false]
    exact lookup_append_self ha

/-- Lookup after setLog at any other key. -/
theorem lookup_setLog_other (logs : HabitLog) {d d' : Int} (v : List String)
    (hne : d' ≠ d) : (setLog logs d v).lookup d' = logs.lookup d' := by
  unfold setLog
  by_cases ha : logs.any (fun p => p.1 == d)
  · rw [if_pos ha]
    exact lookup_map_upd_other hne
  · rw [Bool.not_eq_true] at ha
    rw [ha]
    simp only [Bool.false_eq_true, if_false]
    exact lookup_append_other hne

/-- The entry toggleHabitForDate writes for its day. -/
def toggledEntry (logs : HabitLog) (d : Int) (h : String) : List String :=
  if ((logs.lookup d).getD []).contains h then
    ((logs.lookup d).getD []).filter (fun x => x != h)
  else ((logs.lookup d).getD []) ++ [h]

/-- toggleHabitForDate is setLog of the toggled entry. -/
theorem toggleHabitForDate_eq_setLog (logs : HabitLog) (d : Int) (h : String) :
    toggleHabitForDate logs d h = setLog logs d (toggledEntry logs d h) := rfl

/-- Removing a habit by filter removes it from the entry. -/
theorem contains_filter_self (l : List String) (h : String) :
    (l.filter (fun x => x != h)).contains h = false := by
  rw [list_contains_eq_false_iff]
  intro hmem
  rw [List.mem_filter] at hmem
  have := hmem.2
  simp at this

/-- Filtering out one habit keeps every other habit. -/
theorem contains_filter_other (l : List String) {h h' : String} (hne : h' ≠ h) :
    (l.filter (fun x => x != h)).contains h' = l.contains h' := by
  apply bool_eq_of_iff
  rw [list_contains_iff_mem, list_contains_iff_mem, List.mem_filter]
  constructor
  · intro hx
    exact hx.1
  · intro hx
    refine ⟨hx, ?_⟩
    simp [hne]

/-- Appending a habit adds it to the entry. -/
theorem contains_append_self (l : List String) (h : String) :
    (l ++ [h]).contains h = true := by
  rw [list_contains_iff_mem]
  exact List.mem_append_right l (List.mem_singleton_self h)

/-- Appending one habit keeps every other habit. -/
theorem contains_append_other (l : List String) {h h' : String} (hne : h' ≠ h) :
    (l ++ [h]).contains h' = l.contains h' := by
  apply bool_eq_of_iff
  rw [list_contains_iff_mem, list_contains_iff_mem, List.mem_append]
  constructor
  · intro hx
    rcases hx with hx | hx
    · exact hx
    · rw [List.mem_singleton] at hx
      exact absurd hx hne
  · exact Or.inl

/-! ## A concrete family of logs for counterexamples -/

/-- fullLog N: the log that records habit "h" on each of the N
consecutive days ending at day 0 (days 0, -1, ..., -(N-1)). -/
def fullLog : Nat → HabitLog
  | 0 => []
  | n+1 => ((-(n : Int)), ["h"]) :: fullLog n

/-- Lookup in fullLog N finds exactly the days -(N-1), ..., 0. -/
theorem lookup_fullLog :
    ∀ (N : Nat) (d : Int),
      (fullLog N).lookup d =
        if -(N : Int) < d ∧ d ≤ 0 then some ["h"] else none := by
  intro N
  induction N with
  | zero =>
    intro d
    rw [fullLog]
    have hno : ¬ (-((0 : Nat) : Int) < d ∧ d ≤ 0) := by
      push_cast
      omega
    rw [if_neg hno]
    rfl
  | succ n ih =>
    intro d
    rw [fullLog, List.lookup]
    by_cases hd : d = -(n : Int)
    · have hbeq : (d == -(n : Int)) = true := beq_iff_eq.mpr hd
      rw [hbeq]
      have hcond : -(((n + 1 : Nat)) : Int) < d ∧ d ≤ 0 := by
        subst hd
        push_cast
        omega
      rw [if_pos hcond]
    · have hbeq : (d == -(n : Int)) = false := beq_eq_false_iff_ne.mpr hd
      rw [hbeq]
      rw [ih d]
      by_cases h1 : -(n : Int) < d ∧ d ≤ 0
      · rw [if_pos h1, if_pos (by push_cast; omega)]
      · rw [if_neg h1, if_neg (by push_cast; omega)]

/-- The habit "h" is logged in fullLog N exactly on -(N-1), ..., 0. -/
theorem logged_fullLog (N : Nat) (d : Int) :
    logged (fullLog N) d "h" = true ↔ (-(N : Int) < d ∧ d ≤ 0) := by
  unfold logged
  rw [lookup_fullLog]
  by_cases h1 : -(N : Int) < d ∧ d ≤ 0
  · rw [if_pos h1]
    exact iff_of_true (by decide) h1
  · rw [if_neg h1]
    exact iff_of_false (by decide) h1

/-! ## The claims -/

/-- C1 (amended): for every log, habit id and day, if the manual
calculation over the log gives n consecutive logged days ending at today
(streakSpecHolds), then getHabitStats returns a currentStreak of
min 365 n: the manual count capped at the 365 iterations of the loop. -/
theorem C1_currentStreak_eq_min_cap (logs : HabitLog) (h : String)
    (today : Int) (n : Nat) (hs : streakSpecHolds logs h today n) :
    (getHabitStats logs today h).currentStreak = min 365 n := by
  show streakFrom logs h today 365 = min 365 n
  exact streakFrom_eq_min 365 today n hs.1 hs.2

/-- C1 witness: a log with the habit on day 0 only has manual count 1
and currentStreak min 365 1 = 1. -/
theorem C1_currentStreak_eq_min_cap_witness :
    streakSpecHolds [((0 : Int), ["a"])] "a" 0 1 ∧
      (getHabitStats [((0 : Int), ["a"])] 0 "a").currentStreak = min 365 1 := by
  have hs : streakSpecHolds [((0 : Int), ["a"])] "a" 0 1 := by
    constructor
    · intro k hk
      have hk0 : k = 0 := by omega
      subst hk0
      decide
    · decide
  exact ⟨hs, C1_currentStreak_eq_min_cap [((0 : Int), ["a"])] "a" 0 1 hs⟩

/-- C1 counterexample: on the log recording the habit on each of the 366
consecutive days ending at day 0, the manual calculation gives 366 but
getHabitStats returns a currentStreak of 365 (the loop runs at most 365
iterations), so the claimed equality with the manual count fails. -/
theorem C1_counterexample :
    streakSpecHolds (fullLog 366) "h" 0 366 ∧
      (getHabitStats (fullLog 366) 0 "h").currentStreak = 365 ∧
      (getHabitStats (fullLog 366) 0 "h").currentStreak ≠ 366 := by
  have hs : streakSpecHolds (fullLog 366) "h" 0 366 := by
    constructor
    · intro k hk
      rw [logged_fullLog]
      push_cast
      omega
    · rw [Bool.eq_false_iff, Ne, logged_fullLog]
      intro hcontra
      obtain ⟨h1, h2⟩ := hcontra
      push_cast at h1
  have hc : (getHabitStats (fullLog 366) 0 "h").currentStreak = 365 := by
    have h0 : (getHabitStats (fullLog 366) 0 "h").currentStreak = min 365 366 :=
      streakFrom_eq_min 365 0 366 hs.1 hs.2
    rw [h0]
    omega
  exact ⟨hs, hc, by rw [hc]; decide⟩

/-- C2: a verify-code request whose stored OTP record is expired (with
fewer than 3 recorded attempts) is rejected with status 400, the email
is not marked verified, no user is created, and the stored record is
neither modified nor deleted. -/
theorem C2_expired_code_rejected (req : VerifyReq) (d : OtpDoc) (now : Int)
    (userExists : Bool) (hemail : req.email ≠ "") (hotp : req.otp ≠ "")
    (hexp : now > d.expiresAt) (hatt : attemptsOrZero d < 3) :
    (verifyOtp req (some d) now userExists).status = 400 ∧
      (verifyOtp req (some d) now userExists).emailVerified = false ∧
      (verifyOtp req (some d) now userExists).userCreated = false ∧
      (verifyOtp req (some d) now userExists).record = some d := by
  have hne : ¬ (req.email = "" ∨ req.otp = "") := not_or.mpr ⟨hemail, hotp⟩
  have h3 : ¬ (attemptsOrZero d ≥ 3) := by omega
  simp only [verifyOtp]
  rw [if_neg hne, if_neg h3, if_pos hexp]
  exact ⟨rfl, rfl, rfl, rfl⟩

/-- C2 witness: a concrete expired record with 0 attempts. -/
theorem C2_expired_code_rejected_witness :
    (verifyOtp ⟨"a@b.c", "123456", none⟩
        (some ⟨"123456", 1000, some 0, some 0⟩) 2000 false).status = 400 ∧
      (verifyOtp ⟨"a@b.c", "123456", none⟩
        (some ⟨"123456", 1000, some 0, some 0⟩) 2000 false).emailVerified = false ∧
      (verifyOtp ⟨"a@b.c", "123456", none⟩
        (some ⟨"123456", 1000, some 0, some 0⟩) 2000 false).userCreated = false ∧
      (verifyOtp ⟨"a@b.c", "123456", none⟩
        (some ⟨"123456", 1000, some 0, some 0⟩) 2000 false).record =
        some ⟨"123456", 1000, some 0, some 0⟩ :=
  C2_expired_code_rejected ⟨"a@b.c", "123456", none⟩
    ⟨"123456", 1000, some 0, some 0⟩ 2000 false
    (by decide) (by decide) (by decide) (by decide)

/-- C3: on a well-formed verify-code request with an existing, unexpired
record below the attempt limit and a wrong submitted code, the handler
increments the attempts counter by exactly 1 and answers 400; and when
the record already has at least 3 attempts, the handler deletes the
record and answers 400, with an outcome independent of the submitted
code. -/
theorem C3_attempt_counting (req : VerifyReq) (d : OtpDoc) (now : Int)
    (u : Bool) (hemail : req.email ≠ "") (hotp : req.otp ≠ "") :
    (attemptsOrZero d < 3 → ¬ now > d.expiresAt → req.otp ≠ d.otp →
      (verifyOtp req (some d) now u).status = 400 ∧
        (verifyOtp req (some d) now u).record =
          some { d with attempts := some (attemptsOrZero d + 1) }) ∧
    (attemptsOrZero d ≥ 3 →
      (verifyOtp req (some d) now u).status = 400 ∧
        (verifyOtp req (some d) now u).record = none ∧
        (∀ c : String, c ≠ "" →
          verifyOtp { req with otp := c } (some d) now u =
            verifyOtp req (some d) now u)) := by
  have hne : ¬ (req.email = "" ∨ req.otp = "") := not_or.mpr ⟨hemail, hotp⟩
  constructor
  · intro hatt hexp hwrong
    have h3 : ¬ (attemptsOrZero d ≥ 3) := by omega
    simp only [verifyOtp]
    rw [if_neg hne, if_neg h3, if_neg hexp, if_pos hwrong]
    exact ⟨rfl, rfl⟩
  · intro hatt
    have hres : verifyOtp req (some d) now u = unchangedVerify 400 none := by
      simp only [verifyOtp]
      rw [if_neg hne, if_pos hatt]
    refine ⟨by rw [hres]; rfl, by rw [hres]; rfl, ?_⟩
    intro c hc
    have hne2 : ¬ (req.email = "" ∨ c = "") := not_or.mpr ⟨hemail, hc⟩
    have hres2 : verifyOtp { req with otp := c } (some d) now u =
        unchangedVerify 400 none := by
      simp only [verifyOtp]
      rw [if_neg hne2, if_pos hatt]
    rw [hres, hres2]

/-- C3 witness: a wrong code against a live record with 1 attempt moves
the counter to 2 with status 400. -/
theorem C3_attempt_counting_witness :
    (verifyOtp ⟨"a@b.c", "111111", none⟩
        (some ⟨"222222", 5000, some 0, some 1⟩) 1000 false).status = 400 ∧
      (verifyOtp ⟨"a@b.c", "111111", none⟩
        (some ⟨"222222", 5000, some 0, some 1⟩) 1000 false).record =
        some ⟨"222222", 5000, some 0, some 2⟩ :=
  (C3_attempt_counting ⟨"a@b.c", "111111", none⟩ ⟨"222222", 5000, some 0, some 1⟩
      1000 false (by decide) (by decide)).1
    (by decide) (by decide) (by decide)

/-- C5: a send-code request for an email whose record was created less
than 60 seconds ago is answered 429, the stored record is unchanged, and
no email is sent. -/
theorem C5_rate_limit (email : String) (d : OtpDoc) (t now : Int) (code : Nat)
    (hemail : email ≠ "") (hcreated : d.createdAt = some t)
    (hrecent : now - t < 60000) :
    (sendOtp email (some d) now code).status = 429 ∧
      (sendOtp email (some d) now code).record = some d ∧
      (sendOtp email (some d) now code).emailSentCode = none := by
  have hr : rateLimited (some d) now = true := by
    rw [rateLimited, hcreated]
    simp only [Option.getD_some]
    exact decide_eq_true hrecent
  unfold sendOtp
  rw [if_neg hemail, if_pos hr]
  exact ⟨rfl, rfl, rfl⟩

/-- C5 witness: a record created at time 0 queried again at time 30000. -/
theorem C5_rate_limit_witness :
    (sendOtp "a@b.c" (some ⟨"123456", 600000, some 0, some 0⟩) 30000 654321).status = 429 ∧
      (sendOtp "a@b.c" (some ⟨"123456", 600000, some 0, some 0⟩) 30000 654321).record =
        some ⟨"123456", 600000, some 0, some 0⟩ ∧
      (sendOtp "a@b.c" (some ⟨"123456", 600000, some 0, some 0⟩) 30000 654321).emailSentCode =
        none :=
  C5_rate_limit "a@b.c" ⟨"123456", 600000, some 0, some 0⟩ 0 30000 654321
    (by decide) (by decide) (by decide)

/-- C8: every record stored by a successful send-code request holds the
decimal string of an integer between 100000 and 999999 (an integer with
exactly 6 decimal digits), an expiry of the issuance time plus 10
minutes, and an attempts counter reset to 0, for every previous record. -/
theorem C8_stored_record (email : String) (record : Option OtpDoc) (now : Int)
    (code : Nat) (hemail : email ≠ "") (hnr : rateLimited record now = false)
    (hlo : 100000 ≤ code) (hhi : code < 1000000) :
    (sendOtp email record now code).status = 200 ∧
      (sendOtp email record now code).record =
        some { otp := Nat.repr code, expiresAt := now + 10 * 60 * 1000,
               createdAt := some now, attempts := some 0 } ∧
      (∃ n : Nat, 100000 ≤ n ∧ n ≤ 999999 ∧ Nat.repr code = Nat.repr n ∧
        (Nat.digits 10 n).length = 6) := by
  have hnr2 : ¬ (rateLimited record now = true) := by
    rw [hnr]
    exact Bool.false_ne_true
  refine ⟨?_, ?_, ?_⟩
  · unfold sendOtp
    rw [if_neg hemail, if_neg hnr2]
  · unfold sendOtp
    rw [if_neg hemail, if_neg hnr2]
  · refine ⟨code, hlo, by omega, rfl, ?_⟩
    rw [Nat.digits_len 10 code (by omega) (by omega)]
    have hlog : Nat.log 10 code = 5 :=
      Nat.log_eq_of_pow_le_of_lt_pow (by norm_num; omega) (by norm_num; omega)
    rw [hlog]

/-- C8 witness: a concrete successful send. -/
theorem C8_stored_record_witness :
    (sendOtp "a@b.c" none 1000 123456).status = 200 ∧
      (sendOtp "a@b.c" none 1000 123456).record =
        some { otp := Nat.repr 123456, expiresAt := 1000 + 10 * 60 * 1000,
               createdAt := some 1000, attempts := some 0 } ∧
      (∃ n : Nat, 100000 ≤ n ∧ n ≤ 999999 ∧ Nat.repr 123456 = Nat.repr n ∧
        (Nat.digits 10 n).length = 6) :=
  C8_stored_record "a@b.c" none 1000 123456 (by decide) (by decide)
    (by decide) (by decide)

/-- C6 counterexample: a request meeting every premise of the claim
(matching code, unexpired, 0 attempts, password supplied) is answered
400 with the record left in place when the email already has an auth
user (the `auth/email-already-exists` branch), not 200. -/
theorem C6_counterexample :
    (verifyOtp ⟨"a@b.c", "123456", some "pw"⟩
        (some ⟨"123456", 5000, some 0, some 0⟩) 1000 true).status = 400 ∧
      (verifyOtp ⟨"a@b.c", "123456", some "pw"⟩
        (some ⟨"123456", 5000, some 0, some 0⟩) 1000 true).status ≠ 200 ∧
      (verifyOtp ⟨"a@b.c", "123456", some "pw"⟩
        (some ⟨"123456", 5000, some 0, some 0⟩) 1000 true).record =
        some ⟨"123456", 5000, some 0, some 0⟩ := by
  refine ⟨?_, ?_, ?_⟩ <;> decide

/-- C6 (amended): with a matching unexpired code below the attempt
limit, and the account state matching the flow (a password supplied and
no existing auth user, or no password and an existing auth user), the
handler answers 200 with success true and isNewUser true exactly when a
password was supplied, and deletes the OTP record so the code cannot be
used twice; when a password is supplied but a user already exists, the
handler instead answers 400 and keeps the record. -/
theorem C6_valid_code_success (req : VerifyReq) (d : OtpDoc) (now : Int)
    (userExists : Bool) (hemail : req.email ≠ "") (hotp : req.otp ≠ "")
    (hatt : attemptsOrZero d < 3) (hexp : ¬ now > d.expiresAt)
    (hmatch : req.otp = d.otp) (hflow : userExists = ! passwordTruthy req) :
    (verifyOtp req (some d) now userExists).status = 200 ∧
      (verifyOtp req (some d) now userExists).success = true ∧
      (verifyOtp req (some d) now userExists).isNewUser =
        some (passwordTruthy req) ∧
      (verifyOtp req (some d) now userExists).record = none := by
  have hne : ¬ (req.email = "" ∨ req.otp = "") := not_or.mpr ⟨hemail, hotp⟩
  have h3 : ¬ (attemptsOrZero d ≥ 3) := by omega
  simp only [verifyOtp]
  rw [if_neg hne, if_neg h3, if_neg hexp, if_neg (not_not_intro hmatch)]
  by_cases hp : passwordTruthy req = true
  · rw [if_pos hp]
    rw [hp] at hflow
    simp only [Bool.not_true] at hflow
    rw [hflow]
    simp [hp]
  · rw [Bool.not_eq_true] at hp
    rw [hp]
    rw [hp] at hflow
    simp only [Bool.not_false] at hflow
    rw [hflow]
    simp [hp]

/-- C6 witness: a new-user verification (password supplied, no existing
user) succeeds and consumes the record. -/
theorem C6_valid_code_success_witness :
    (verifyOtp ⟨"a@b.c", "123456", some "pw"⟩
        (some ⟨"123456", 5000, some 0, some 0⟩) 1000 false).status = 200 ∧
      (verifyOtp ⟨"a@b.c", "123456", some "pw"⟩
        (some ⟨"123456", 5000, some 0, some 0⟩) 1000 false).success = true ∧
      (verifyOtp ⟨"a@b.c", "123456", some "pw"⟩
        (some ⟨"123456", 5000, some 0, some 0⟩) 1000 false).isNewUser =
        some (passwordTruthy ⟨"a@b.c", "123456", some "pw"⟩) ∧
      (verifyOtp ⟨"a@b.c", "123456", some "pw"⟩
        (some ⟨"123456", 5000, some 0, some 0⟩) 1000 false).record = none :=
  C6_valid_code_success ⟨"a@b.c", "123456", some "pw"⟩
    ⟨"123456", 5000, some 0, some 0⟩ 1000 false
    (by decide) (by decide) (by decide) (by decide) (by decide) (by decide)

/-- C4 counterexample: a failure at step 1 of Flow A (the calendar add,
after auth.createUser succeeded) leaves the auth user created but no
calendar, no habits and the OTP record still present: neither all
effects nor none of them. -/
theorem C4_counterexample :
    ¬ allFlowAEffects (runFlowA (some 1)).1 ∧
      ¬ noFlowAEffects (runFlowA (some 1)).1 := by
  constructor <;> simp [allFlowAEffects, noFlowAEffects, runFlowA]

/-- C4 (amended): only the four default habits and the deletion of the
used OTP record are atomic with each other (they share the single
batch): in every execution the habits are created exactly when the OTP
record is deleted, and every effect takes place exactly when the handler
answers 200; the auth user and the default calendar are created by
separate earlier operations, so a later failure can leave a partially
created account. -/
theorem C4_batch_atomicity (failAt : Option Nat) :
    ((runFlowA failAt).1.habitsCreated = 4 ↔
        (runFlowA failAt).1.otpDeleted = true) ∧
      ((runFlowA failAt).2 = 200 ↔ allFlowAEffects (runFlowA failAt).1) := by
  unfold runFlowA
  split_ifs <;> simp [allFlowAEffects]

/-- C4 witness: the batch-atomicity equivalence at the failing step 1. -/
theorem C4_batch_atomicity_witness :
    (runFlowA (some 1)).1.habitsCreated = 4 ↔
      (runFlowA (some 1)).1.otpDeleted = true :=
  (C4_batch_atomicity (some 1)).1

/-- C7 counterexample: in the first possible event order of a successful
send-code request, the Firestore store does not complete before the
email send begins (the send is started synchronously right after the
store is started, before either completes), refuting the claimed
ordering. -/
theorem C7_counterexample :
    [SendEvent.genCode, SendEvent.storeStart, SendEvent.sendStart,
        SendEvent.storeEnd, SendEvent.sendEnd, SendEvent.respond] ∈
      sendOtpSuccessTraces ∧
      ¬ beforeIn [SendEvent.genCode, SendEvent.storeStart, SendEvent.sendStart,
          SendEvent.storeEnd, SendEvent.sendEnd, SendEvent.respond]
        SendEvent.storeEnd SendEvent.sendStart := by
  constructor
  · simp [sendOtpSuccessTraces]
  · unfold beforeIn
    decide

/-- C7 (amended): in every possible event order of a successful
send-code request, the code is generated before the store is started,
the store is started before the send is started, the send begins before
the store completes (they run in parallel under Promise.all), and both
operations complete before the 200 response. -/
theorem C7_event_order (t : List SendEvent) (ht : t ∈ sendOtpSuccessTraces) :
    beforeIn t SendEvent.genCode SendEvent.storeStart ∧
      beforeIn t SendEvent.storeStart SendEvent.sendStart ∧
      beforeIn t SendEvent.sendStart SendEvent.storeEnd ∧
      beforeIn t SendEvent.storeEnd SendEvent.respond ∧
      beforeIn t SendEvent.sendEnd SendEvent.respond := by
  simp only [sendOtpSuccessTraces, List.mem_cons, List.mem_singleton,
    List.not_mem_nil, or_false] at ht
  rcases ht with ht | ht <;> subst ht <;> unfold beforeIn <;>
    refine ⟨?_, ?_, ?_, ?_, ?_⟩ <;> decide

/-- C7 witness: the event order facts on the first concrete trace. -/
theorem C7_event_order_witness :
    [SendEvent.genCode, SendEvent.storeStart, SendEvent.sendStart,
        SendEvent.storeEnd, SendEvent.sendEnd, SendEvent.respond] ∈
      sendOtpSuccessTraces ∧
      beforeIn [SendEvent.genCode, SendEvent.storeStart, SendEvent.sendStart,
          SendEvent.storeEnd, SendEvent.sendEnd, SendEvent.respond]
        SendEvent.genCode SendEvent.storeStart :=
  ⟨by simp [sendOtpSuccessTraces],
    (C7_event_order _ (by simp [sendOtpSuccessTraces])).1⟩

/-- Toggling negates completion of the toggled pair. -/
theorem toggle_flips (logs : HabitLog) (d : Int) (h : String) :
    isHabitCompleted (toggleHabitForDate logs d h) d h =
      ! isHabitCompleted logs d h := by
  rw [toggleHabitForDate_eq_setLog]
  unfold isHabitCompleted logged
  rw [lookup_setLog_self]
  simp only [Option.getD_some]
  unfold toggledEntry
  by_cases hc : ((logs.lookup d).getD []).contains h = true
  · rw [if_pos hc, hc, contains_filter_self]
    rfl
  · rw [Bool.not_eq_true] at hc
    rw [hc]
    simp only [Bool.false_eq_true, if_false]
    rw [contains_append_self]
    rfl

/-- C9: toggleHabitForDate flips completion of exactly its (date, habit)
pair: completion of that pair is negated, every other date key of the
log keeps its entry, every other habit on the same date keeps its
completion, and toggling twice restores the pair's original completion
state. -/
theorem C9_toggle_exact (logs : HabitLog) (d : Int) (h : String) :
    isHabitCompleted (toggleHabitForDate logs d h) d h =
        ! isHabitCompleted logs d h ∧
      (∀ d2 : Int, d2 ≠ d →
        (toggleHabitForDate logs d h).lookup d2 = logs.lookup d2) ∧
      (∀ h2 : String, h2 ≠ h →
        isHabitCompleted (toggleHabitForDate logs d h) d h2 =
          isHabitCompleted logs d h2) ∧
      isHabitCompleted
          (toggleHabitForDate (toggleHabitForDate logs d h) d h) d h =
        isHabitCompleted logs d h := by
  refine ⟨toggle_flips logs d h, ?_, ?_, ?_⟩
  · intro d2 hne
    rw [toggleHabitForDate_eq_setLog]
    exact lookup_setLog_other logs _ hne
  · intro h2 hne
    rw [toggleHabitForDate_eq_setLog]
    unfold isHabitCompleted logged
    rw [lookup_setLog_self]
    simp only [Option.getD_some]
    unfold toggledEntry
    by_cases hc : ((logs.lookup d).getD []).contains h = true
    · rw [if_pos hc]
      exact contains_filter_other _ hne
    · rw [Bool.not_eq_true] at hc
      rw [hc]
      simp only [Bool.false_eq_true, if_false]
      exact contains_append_other _ hne
  · rw [toggle_flips, toggle_flips, Bool.not_not]

/-- C9 witness: the flip on a concrete log. -/
theorem C9_toggle_exact_witness :
    isHabitCompleted (toggleHabitForDate [((0 : Int), ["a"])] 0 "a") 0 "a" =
      ! isHabitCompleted [((0 : Int), ["a"])] 0 "a" :=
  (C9_toggle_exact [((0 : Int), ["a"])] 0 "a").1

/-- C10: for a log with distinct date keys, getHabitStats always
returns longestStreak ≥ currentStreak, and both streaks are 0 when the
habit appears on no date of the log. -/
theorem C10_streak_relation (logs : HabitLog) (h : String) (today : Int)
    (hnd : (logs.map Prod.fst).Nodup) :
    (getHabitStats logs today h).currentStreak ≤
        (getHabitStats logs today h).longestStreak ∧
      ((∀ p ∈ logs, p.2.contains h = false) →
        (getHabitStats logs today h).currentStreak = 0 ∧
          (getHabitStats logs today h).longestStreak = 0) := by
  constructor
  · show streakFrom logs h today 365 ≤ longestStreakOf (allDatesFor logs h)
    exact streak_le_longest hnd
  · intro habs
    constructor
    · show streakFrom logs h today (364 + 1) = 0
      rw [streakFrom]
      have hlf : logged logs today h = false := by
        rw [Bool.eq_false_iff, Ne]
        intro ht
        rcases logged_iff_lookup.mp ht with ⟨v, hv, hm⟩
        have hmem := mem_of_lookup_eq_some hv
        have hcv := habs _ hmem
        rw [list_contains_eq_false_iff] at hcv
        exact hcv hm
      rw [hlf]
      simp
    · show longestStreakOf (sortDesc (habitKeys logs h)) = 0
      rw [habitKeys_eq_nil habs]
      rfl

/-- C10 witness: a concrete one-day log and an absent habit. -/
theorem C10_streak_relation_witness :
    (([((0 : Int), ["a"])] : HabitLog).map Prod.fst).Nodup ∧
      (getHabitStats [((0 : Int), ["a"])] 0 "b").currentStreak ≤
        (getHabitStats [((0 : Int), ["a"])] 0 "b").longestStreak ∧
      ((getHabitStats [((0 : Int), ["a"])] 0 "b").currentStreak = 0 ∧
        (getHabitStats [((0 : Int), ["a"])] 0 "b").longestStreak = 0) := by
  have hnd : (([((0 : Int), ["a"])] : HabitLog).map Prod.fst).Nodup := by
    decide
  have hmain := C10_streak_relation [((0 : Int), ["a"])] "b" 0 hnd
  exact ⟨hnd, hmain.1, hmain.2 (by decide)⟩
